import Mathlib

/-!
# Verification of the cerebro feature-extraction engine

Shallow embedding, in Lean 4, of the numerical core of the `cerebro`
EEG/ECG feature-extraction engine, together with theorems settling the
frozen claims about its specification.

Modelling conventions:
* Python floats are modelled by exact rationals (`ℚ`) for the
  combinatorial/arithmetic parts of the code and by real numbers (`ℝ`)
  once transcendental functions (`log`, `sqrt`) enter; `1e-10` is the
  exact rational `1/10^10`.
* Fallible code (Python exceptions) is modelled with `Except String`,
  the error string naming the Python exception class raised there.
* Lean's total-function conventions (`x / 0 = 0`, `Real.log 0 = 0`,
  `Real.log` of a negative number `= 0`) stand in for the IEEE special
  values (`nan`, `-inf`) that numpy produces on the corresponding
  degenerate inputs; no theorem below asserts a value on such a path.
* External collaborators (mne spectral estimation, mne filtering, scipy
  coherence) are out of scope per the spec; their outputs enter the
  embedded functions as explicit parameters.
-/

namespace Cerebro

/-! ## Shared numpy-style helpers -/

/-- `np.mean` over rationals: sum divided by length (Lean gives 0 on an
empty list, a path no theorem relies on). -/
def np_mean (l : List ℚ) : ℚ := l.sum / l.length

/-- `np.mean` over reals. -/
noncomputable def np_mean_r (l : List ℝ) : ℝ := l.sum / l.length

/-- `np.diff`: successive differences. -/
def np_diff (l : List ℚ) : List ℚ := (l.zip l.tail).map fun p => p.2 - p.1

/-- Population variance, as used by `np.std` (denominator `N`). -/
noncomputable def np_var (l : List ℚ) : ℝ :=
  np_mean_r (l.map fun x : ℚ => ((x : ℝ) - (np_mean l : ℝ)) ^ 2)

/-- `np.std`: population standard deviation. -/
noncomputable def np_std (l : List ℚ) : ℝ := Real.sqrt (np_var l)

/-- `np.cumsum`. -/
def np_cumsum (l : List ℚ) : List ℚ :=
  (List.range l.length).map fun i => ((l.take (i + 1)).sum)

/-- Slope of the degree-1 least-squares fit `np.polyfit(xs, ys, 1)[0]`
(the usual closed form; Lean's `0`-division covers the degenerate
rank-deficient case, where numpy's `lstsq` likewise yields slope 0 for
the inputs arising here). -/
noncomputable def polyfit1_slope (xs ys : List ℝ) : ℝ :=
  let n : ℝ := xs.length
  let sx := xs.sum
  let sy := ys.sum
  let sxy := ((xs.zip ys).map fun p => p.1 * p.2).sum
  let sxx := (xs.map fun x => x ^ 2).sum
  (n * sxy - sx * sy) / (n * sxx - sx ^ 2)

/-! ## CardiacAnalyzer (`src/heart_analysis.py`) -/

/-- Case-insensitive substring test, as Python's `pat in s.lower()`
(lower-casing per character, which agrees with `str.lower` on the ASCII
channel names at hand). -/
def str_contains_ci (s pat : String) : Bool :=
  (List.range ((s.toList.map Char.toLower).length + 1)).any fun i =>
    pat.toList.isPrefixOf ((s.toList.map Char.toLower).drop i)

/-- `HeartRateAnalysis.find_ecg_channel`: first channel whose lowered
name contains "ecg" or "ekg"; otherwise first containing "eog";
otherwise `none`. -/
def find_ecg_channel (ch_names : List String) : Option String :=
  match ch_names.find? (fun ch => str_contains_ci ch "ecg" || str_contains_ci ch "ekg") with
  | some ch => some ch
  | none => ch_names.find? (fun ch => str_contains_ci ch "eog")

/-- `HeartRateAnalysis.compute_rr_intervals`, as a function of the
detected peak positions (peak detection itself runs through the external
`mne.filter.filter_data`; its output is this function's argument):
`rr = np.diff(peaks) / sfreq * 1000`. -/
def compute_rr_intervals (peaks : List ℚ) (sfreq : ℚ) : List ℚ :=
  (np_diff peaks).map fun d => d / sfreq * 1000

/-- The mask `(rr > 300) & (rr < 2000)` of `compute_heart_rate`. -/
def hr_keep (r : ℚ) : Bool := decide (300 < r ∧ r < 2000)

/-- `HeartRateAnalysis.compute_heart_rate` on the stored RR series:
return 0.0 on an empty series, drop intervals not strictly inside
(300, 2000) ms, return 0.0 if none survive, else `60000 / mean`. -/
def compute_heart_rate (rr : List ℚ) : ℚ :=
  if rr.length = 0 then 0
  else
    let f := rr.filter hr_keep
    if f.length = 0 then 0 else 60000 / np_mean f

/-- `compute_rmssd`: 0.0 with fewer than 2 RR intervals, else the root
mean square of successive differences. -/
noncomputable def compute_rmssd (rr : List ℚ) : ℝ :=
  if rr.length < 2 then 0
  else Real.sqrt (np_mean_r ((np_diff rr).map fun d : ℚ => ((d : ℝ)) ^ 2))

/-- `compute_sdnn`: 0.0 with fewer than 2 RR intervals, else `np.std`. -/
noncomputable def compute_sdnn (rr : List ℚ) : ℝ :=
  if rr.length < 2 then 0 else np_std rr

/-- `compute_pnn50`. -/
def compute_pnn50 (rr : List ℚ) : ℚ :=
  if rr.length < 2 then 0
  else
    let d := (np_diff rr).map fun x => |x|
    ((d.filter fun x => decide (50 < x)).length : ℚ) / d.length * 100

/-- `compute_pnn20`. -/
def compute_pnn20 (rr : List ℚ) : ℚ :=
  if rr.length < 2 then 0
  else
    let d := (np_diff rr).map fun x => |x|
    ((d.filter fun x => decide (20 < x)).length : ℚ) / d.length * 100

end Cerebro

namespace Cerebro

/-- C5 support: the survivors of the physiological-plausibility filter. -/
def hr_filter (rr : List ℚ) : List ℚ := rr.filter hr_keep

end Cerebro

namespace Cerebro

/-! ## ConnectivityAnalyzer, spectral matrices
(`src/cerebro/connectivity_analysis.py`)

`spectral_connectivity_epochs` is an external mne collaborator; the
scalar it delivers for the band `(fmin, fmax)` and the upper-triangle
channel pair `(i, j)` enters as the parameter `sc fmin fmax i j` (for
the PSI the parameter already stands for `np.real(con)`). -/

/-- `compute_wpli`: zero matrix, upper triangle set from the estimator,
then `wpli_matrix += wpli_matrix.T`. -/
def compute_wpli (n : ℕ) (sc : ℚ → ℚ → ℕ → ℕ → ℝ) (fmin fmax : ℚ) :
    Matrix (Fin n) (Fin n) ℝ := fun i j =>
  (if (i : ℕ) < (j : ℕ) then sc fmin fmax i j else 0) +
    (if (j : ℕ) < (i : ℕ) then sc fmin fmax j i else 0)

/-- `compute_phase_slope_index`: same construction from
`np.real(con)`. -/
def compute_phase_slope_index (n : ℕ) (sc : ℚ → ℚ → ℕ → ℕ → ℝ) (fmin fmax : ℚ) :
    Matrix (Fin n) (Fin n) ℝ := fun i j =>
  (if (i : ℕ) < (j : ℕ) then sc fmin fmax i j else 0) +
    (if (j : ℕ) < (i : ℕ) then sc fmin fmax j i else 0)

/-- `compute_coherence`: upper triangle set from `np.abs(con)`,
symmetrized by `+= .T`, then `np.fill_diagonal(coh_matrix, 1.0)`. -/
def compute_coherence (n : ℕ) (sc : ℚ → ℚ → ℕ → ℕ → ℝ) (fmin fmax : ℚ) :
    Matrix (Fin n) (Fin n) ℝ := fun i j =>
  if i = j then 1
  else
    (if (i : ℕ) < (j : ℕ) then |sc fmin fmax i j| else 0) +
      (if (j : ℕ) < (i : ℕ) then |sc fmin fmax j i| else 0)

/-- `compute_phase_locking_value`: the source returns
`self.compute_coherence(fmin=fmin, fmax=fmax)` verbatim. -/
def compute_phase_locking_value (n : ℕ) (sc : ℚ → ℚ → ℕ → ℕ → ℝ) (fmin fmax : ℚ) :
    Matrix (Fin n) (Fin n) ℝ :=
  compute_coherence n sc fmin fmax

/-! ## ConnectivityAnalyzer, graph statistics (`src/cerebro/connectivity.py`)

`calculate_all_coherence` delegates the pairwise estimate to the
external `scipy.signal.coherence`; its output — the mapping from an
unordered channel pair to a coherence scalar, keyed in the source as the
string `"ch1-ch2"` and split back into the pair — enters
`build_and_analyze_graph` as the explicit list `coherence_data` of
`(node1, node2, weight)` triples (one per unordered pair). -/

/-- `np.percentile(values, 75)` with the default linear interpolation:
at rank `h = 0.75·(n-1)`, interpolate between the floor and ceiling
order statistics. -/
def np_percentile_75 (values : List ℚ) : ℚ :=
  let v := values.insertionSort (· ≤ ·)
  let h : ℚ := 3 * ((values.length : ℚ) - 1) / 4
  let lo := ⌊h⌋.toNat
  let hi := ⌈h⌉.toNat
  v.getD lo 0 + (h - lo) * (v.getD hi 0 - v.getD lo 0)

/-- The `75`th-percentile threshold of `build_and_analyze_graph`. -/
def graph_threshold (coherence_data : List (String × String × ℚ)) : ℚ :=
  np_percentile_75 (coherence_data.map fun e => e.2.2)

/-- The edges surviving `G.remove_edges_from(edges_to_remove)`, where
`edges_to_remove = [(u,v) for u,v,w in G.edges if w["weight"] < threshold]`. -/
def retained_edges (coherence_data : List (String × String × ℚ)) :
    List (String × String × ℚ) :=
  coherence_data.filter fun e => !decide (e.2.2 < graph_threshold coherence_data)

/-- Node list of the networkx graph: endpoints in insertion order
(`G.add_edge` inserts `node1` then `node2`; nodes survive edge
removal). -/
def graph_nodes (coherence_data : List (String × String × ℚ)) : List String :=
  coherence_data.foldl
    (fun acc e =>
      let acc1 := if e.1 ∈ acc then acc else acc ++ [e.1]
      if e.2.1 ∈ acc1 then acc1 else acc1 ++ [e.2.1])
    []

/-- Minimum of two optional path lengths (`none` = unreachable). -/
def omin : Option ℚ → Option ℚ → Option ℚ
  | none, b => b
  | some x, none => some x
  | some x, some y => some (min x y)

/-- Concatenation of two optional path lengths. -/
def oadd : Option ℚ → Option ℚ → Option ℚ
  | some x, some y => some (x + y)
  | _, _ => none

/-- Direct-edge length between two nodes under the per-edge distance
`d` applied to the stored coherence weight. -/
def edge_len (edges : List (String × String × ℚ)) (d : ℚ → ℚ) (u v : String) :
    Option ℚ :=
  match edges.find? (fun e =>
      decide ((e.1 = u ∧ e.2.1 = v) ∨ (e.1 = v ∧ e.2.1 = u))) with
  | some e => some (d e.2.2)
  | none => none

/-- One Floyd–Warshall relaxation round through intermediate node `k`. -/
def fw_step (dist : ℕ → ℕ → Option ℚ) (k : ℕ) : ℕ → ℕ → Option ℚ :=
  fun i j => omin (dist i j) (oadd (dist i k) (dist k j))

/-- All-pairs shortest-path lengths (Floyd–Warshall) over node indices. -/
def fw (n : ℕ) (dist0 : ℕ → ℕ → Option ℚ) : ℕ → ℕ → Option ℚ :=
  (List.range n).foldl fw_step dist0

/-- Initial distances: 0 on the diagonal, direct edge length elsewhere. -/
def dist0 (edges : List (String × String × ℚ)) (d : ℚ → ℚ) (nodes : List String) :
    ℕ → ℕ → Option ℚ := fun i j =>
  if i = j then some 0 else edge_len edges d (nodes.getD i "") (nodes.getD j "")

/-- `networkx.closeness_centrality(G, distance=…)` (default
`wf_improved=True`): with `r` reachable nodes (node itself included) and
`totsp` the summed shortest-path distances,
`(r-1)/totsp · (r-1)/(n-1)`, and `0.0` when `totsp ≤ 0` or `n ≤ 1`.
The per-edge distance is `d` of the stored weight. -/
def closeness_centrality (edges : List (String × String × ℚ)) (d : ℚ → ℚ)
    (u : String) : ℚ :=
  let nodes := graph_nodes edges
  let n := nodes.length
  let dist := fw n (dist0 edges d nodes)
  let ui := nodes.indexOf u
  let sp := (List.range n).filterMap fun v => dist v ui
  let r := sp.length
  let totsp := sp.sum
  if 0 < totsp ∧ 1 < n then ((r : ℚ) - 1) / totsp * (((r : ℚ) - 1) / ((n : ℚ) - 1))
  else 0

/-- The closeness-centrality entry of `build_and_analyze_graph`'s
`measures` dict: networkx is called with `distance="weight"`, i.e. the
raw coherence weight is the per-edge distance. -/
def build_and_analyze_graph_closeness (coherence_data : List (String × String × ℚ))
    (u : String) : ℚ :=
  closeness_centrality (retained_edges coherence_data) (fun w => w) u

/-- Modelled from the spec: closeness centrality "using inverse weight
as distance" — identical pipeline but with per-edge distance `1/w`. -/
def spec_closeness_inverse_weight (coherence_data : List (String × String × ℚ))
    (u : String) : ℚ :=
  closeness_centrality (retained_edges coherence_data) (fun w => 1 / w) u

end Cerebro

namespace Cerebro

/-! ## ComplexityAnalyzer (`src/cerebro/complexity_analysis.py`) -/

/-- The 19-channel 10-20 montage list `CHANNELS_10_20` from
`cerebro/utils/params.py`. -/
def CHANNELS_10_20 : List String :=
  ["Fp1", "Fp2", "F3", "F4", "C3", "C4", "P3", "P4", "O1", "O2",
   "F7", "F8", "T3", "T4", "T5", "T6", "Fz", "Cz", "Pz"]

/-- `_maxdist`: Chebyshev distance of two template vectors. -/
def maxdist (xi xj : List ℚ) : ℚ :=
  ((xi.zip xj).map fun p => |p.1 - p.2|).foldr max 0

/-- `_phi` of `compute_sample_entropy`: `np.zeros(N - m)` raises
`ValueError` when `N - m < 0`; otherwise the count, over ordered pairs
`i ≠ j` of `m`-length templates, of Chebyshev distances `< r`, divided
by `N - m` (Lean's `0/0 = 0` stands for numpy's `nan` at `N = m`; no
theorem evaluates that path). -/
noncomputable def sample_phi (signal : List ℚ) (m : ℕ) (r : ℝ) : Except String ℝ :=
  if (signal.length : ℤ) - m < 0 then .error "ValueError"
  else
    let N := signal.length
    let patterns := (List.range (N - m)).map fun i => (signal.drop i).take m
    let count := fun i =>
      ((List.range (N - m)).filter fun j =>
        decide (i ≠ j) &&
          decide ((maxdist (patterns.getD i []) (patterns.getD j []) : ℝ) < r)).length
    .ok ((((List.range (N - m)).map fun i => (count i : ℝ)).sum) / ((N : ℝ) - m))

/-- `compute_sample_entropy(signal, m=2, r=0.2)`: tolerance
`r·np.std`, `-ln(phi(m+1)/phi(m))`, 0.0 when either phi is zero. -/
noncomputable def compute_sample_entropy (signal : List ℚ) (m : ℕ) (r0 : ℝ) :
    Except String ℝ := do
  let r := r0 * np_std signal
  let phi_m ← sample_phi signal m r
  let phi_m1 ← sample_phi signal (m + 1) r
  .ok (if phi_m = 0 ∨ phi_m1 = 0 then 0 else -Real.log (phi_m1 / phi_m))

/-- `_phi` of `compute_approximate_entropy`: `np.zeros(N - m + 1)`
raises `ValueError` when `N - m + 1 < 0`; otherwise the self-match
counting variant, `sum(log C) / (N - m + 1)` (`Real.log 0 = 0` stands
for numpy's `-inf` on zero counts; no theorem evaluates that path). -/
noncomputable def approx_phi (signal : List ℚ) (m : ℕ) (r : ℝ) : Except String ℝ :=
  if (signal.length : ℤ) - m + 1 < 0 then .error "ValueError"
  else
    let N := signal.length
    let idxs := List.range (N + 1 - m)
    let patterns := idxs.map fun i => (signal.drop i).take m
    let count := fun i =>
      (idxs.filter fun j =>
        decide ((maxdist (patterns.getD i []) (patterns.getD j []) : ℝ) < r)).length
    .ok ((idxs.map fun i => Real.log (count i)).sum / ((N : ℝ) - m + 1))

/-- `compute_approximate_entropy(signal, m=2, r=0.2)`:
`phi(m) - phi(m+1)`. -/
noncomputable def compute_approximate_entropy (signal : List ℚ) (m : ℕ) (r0 : ℝ) :
    Except String ℝ := do
  let r := r0 * np_std signal
  let a ← approx_phi signal m r
  let b ← approx_phi signal (m + 1) r
  .ok (a - b)

/-- Maximum of a rational list (used on nonempty segments only). -/
def list_max (l : List ℚ) : ℚ := l.foldr max (l.headD 0)

/-- Minimum of a rational list (used on nonempty segments only). -/
def list_min (l : List ℚ) : ℚ := l.foldr min (l.headD 0)

/-- `compute_hurst_exponent`: rescaled-range (R/S) analysis. Block
starts `range(0, N-n, n)`; block R/S kept when the block's signal
std is positive; mean R/S per block size `n ∈ range(10, N//2)`;
log-log least-squares slope, with 0.5 when no (n, R/S) pair exists. -/
noncomputable def compute_hurst_exponent (signal : List ℚ) : ℝ :=
  let N := signal.length
  let y := np_cumsum (signal.map fun x => x - np_mean signal)
  let rs_values := (List.range' 10 (N / 2 - 10)).filterMap fun n =>
    let starts := (List.range ((N - 1) / n)).map fun i => i * n
    let rs_n := starts.filterMap fun start =>
      let segment := (y.drop start).take n
      let R := list_max segment - list_min segment
      let S := np_std ((signal.drop start).take n)
      if 0 < S then some ((R : ℝ) / S) else none
    if rs_n = [] then none else some (n, np_mean_r rs_n)
  if rs_values = [] then 0.5
  else
    polyfit1_slope (rs_values.map fun p => Real.log p.1)
      (rs_values.map fun p => Real.log p.2)

/-- The index set `np.arange(m, N, k)`. -/
def np_arange_step (m N k : ℕ) : List ℕ :=
  (List.range ((N - m + k - 1) / k)).map fun i => m + i * k

/-- The curve-length table `L` of Higuchi's method: for each scale `k`
the mean over offsets `m < k` of
`sum(abs(diff(signal[indices]))) * (N-1) / (len(indices)*k)`, offsets
with at most one index dropped — all exact rational arithmetic. -/
def higuchi_L (signal : List ℚ) (n_segments : ℕ) : List ℚ :=
  let N := signal.length
  (List.range' 1 n_segments).filterMap fun k =>
    let Lk := (List.range k).filterMap fun m =>
      let indices := np_arange_step m N k
      if 1 < indices.length then
        some (((np_diff (indices.map fun i => signal.getD i 0)).map fun d => |d|).sum
          * ((N : ℚ) - 1) / ((indices.length : ℚ) * k))
      else none
    if Lk = [] then none else some (np_mean Lk)

/-- `compute_fractal_dimension(signal, n_segments=10)`: Higuchi's
method; 1.0 when the table is empty or sums to zero (checked before the
fit, as in the source). `np.polyfit` is then called with `log_k =
np.log(x)` of length `n_segments` but `log_L` of length `len(L)`, so
whenever a scale was dropped (any signal with a nonzero table and fewer
than `n_segments + 1` samples) it raises
`TypeError("expected x and y to have same length")`; otherwise the
result is minus the log-log least-squares slope. -/
noncomputable def compute_fractal_dimension (signal : List ℚ) (n_segments : ℕ) :
    Except String ℝ :=
  let L := higuchi_L signal n_segments
  if L = [] ∨ L.sum = 0 then .ok 1.0
  else if L.length ≠ n_segments then .error "TypeError"
  else
    .ok (-(polyfit1_slope ((List.range' 1 n_segments).map fun k : ℕ => Real.log k)
      (L.map fun x : ℚ => Real.log (x : ℝ))))

/-- `np.median`: middle order statistic, or the mean of the two middle
ones for even length. -/
def np_median (l : List ℚ) : ℚ :=
  let v := l.insertionSort (· ≤ ·)
  if l.length % 2 = 1 then v.getD (l.length / 2) 0
  else (v.getD (l.length / 2 - 1) 0 + v.getD (l.length / 2) 0) / 2

/-- Binarization of `compute_lempel_ziv_complexity`: `'1' if s >
median·threshold else '0'`. -/
def lz_binarize (signal : List ℚ) (threshold : ℚ) : List Bool :=
  signal.map fun s => decide (np_median signal * threshold < s)

/-- The inner `for k in range(1, i+1)` scan of the LZ loop: a phrase
`binary[i:i+k]` is reproduced if it matches `binary[j:j+k]`; the
`i + k > len` break is the `i + k ≤ len` bound here. -/
def lz_found (b : List Bool) (i j : ℕ) : Bool :=
  (List.range' 1 i).any fun k =>
    decide (i + k ≤ b.length) && decide ((b.drop i).take k = (b.drop j).take k)

/-- The `while i < len(binary)` scan of
`compute_lempel_ziv_complexity`, with explicit fuel (the loop advances
`i` by one each iteration, so `len(binary)` iterations suffice). -/
def lz_loop : ℕ → List Bool → ℕ → ℕ → ℕ → ℕ
  | 0, _, _, _, c => c
  | fuel + 1, b, i, j, c =>
    if i < b.length then
      if b.getD i false ≠ b.getD j false then lz_loop fuel b (i + 1) j c
      else
        if lz_found b i j then lz_loop fuel b (i + 1) j c
        else lz_loop fuel b (i + 1) i (c + 1)
    else c

/-- `compute_lempel_ziv_complexity(signal, threshold=0.5)`: LZ76 phrase
count of the binarized signal, starting from `c=1, j=0, i=1`. -/
def compute_lempel_ziv_complexity (signal : List ℚ) (threshold : ℚ) : ℕ :=
  let b := lz_binarize signal threshold
  lz_loop b.length b 1 0 1

/-- Box sizes `np.unique(np.logspace(0, np.log10(N//4), dtype=int))`:
50 log-spaced reals truncated to ints, sorted and deduplicated. For
`N//4 = 0`, `np.log10(0) = -inf` makes the logspace `[1, 0, …, 0]`,
i.e. `[0, 1]` after `np.unique`. -/
noncomputable def dfa_box_sizes (N : ℕ) : List ℕ :=
  if N / 4 = 0 then [0, 1]
  else
    (((List.range 50).map fun i =>
      (⌊(10 : ℝ) ^ ((i : ℝ) * Real.logb 10 ((N / 4 : ℕ) : ℝ) / 49)⌋).toNat).insertionSort
        (· ≤ ·)).dedup

/-- Intercept of the degree-1 least-squares fit (`ȳ - slope·x̄`). -/
noncomputable def polyfit1_intercept (xs ys : List ℝ) : ℝ :=
  ys.sum / xs.length - polyfit1_slope xs ys * (xs.sum / xs.length)

/-- `compute_dfa`: cumulative mean-centred sum, per-box linear-detrend
residual variance averaged per box size, half the log-log slope; 0.5
when no box size yields data. `N // 0 = 0` matches numpy's
warn-and-zero integer division; `Real.log 0 = 0` stands for the `-inf`
numpy produces on zero fluctuations (no theorem evaluates these
values); the `end > N` break never fires for `i < N // s` and is kept
as a skip. -/
noncomputable def compute_dfa (signal : List ℚ) : ℝ :=
  let N := signal.length
  let y := np_cumsum (signal.map fun x => x - np_mean signal)
  let box_sizes := dfa_box_sizes N
  let F := box_sizes.filterMap fun s =>
    let Fs := (List.range (N / s)).filterMap fun i =>
      let start := i * s
      if N < start + s then none
      else
        let segment := ((y.drop start).take s).map fun q : ℚ => (q : ℝ)
        let xs := (List.range s).map fun t : ℕ => (t : ℝ)
        let slope := polyfit1_slope xs segment
        let intercept := polyfit1_intercept xs segment
        some (np_mean_r ((xs.zip segment).map fun p =>
          (p.2 - (slope * p.1 + intercept)) ^ 2))
    if Fs = [] then none else some (np_mean_r Fs)
  if F = [] then 0.5
  else
    polyfit1_slope ((box_sizes.take F.length).map fun s : ℕ => Real.log s)
      (F.map Real.log) / 2

/-- Window `signal[i : i + delay*m : delay]` of
`compute_permutation_entropy` (always fully in range for the starts
used). -/
def pe_window (signal : List ℚ) (i m delay : ℕ) : List ℚ :=
  (List.range m).map fun j => signal.getD (i + j * delay) 0

/-- `np.argsort` on a small window: indices sorted by value, ties by
position (numpy's introsort insertion-sorts small arrays, which is
stable). -/
def np_argsort (w : List ℚ) : List ℕ :=
  (List.range w.length).insertionSort fun a b =>
    w.getD a 0 < w.getD b 0 ∨ (w.getD a 0 = w.getD b 0 ∧ a ≤ b)

/-- The window starts `range(0, N - delay*m, delay)` (empty when the
stop is ≤ 0, as in Python). -/
def pe_starts (signal : List ℚ) (m delay : ℕ) : List ℕ :=
  (List.range ((signal.length - delay * m + delay - 1) / delay)).map fun i => i * delay

/-- The ordinal patterns of all windows. -/
def pe_patterns (signal : List ℚ) (m delay : ℕ) : List (List ℕ) :=
  (pe_starts signal m delay).map fun i => np_argsort (pe_window signal i m delay)

/-- The pattern counts delivered by
`np.unique(patterns, axis=0, return_counts=True)` (as a multiset;
`np.unique` sorts the distinct patterns, which no sum below depends
on). -/
def pe_counts (signal : List ℚ) (m delay : ℕ) : List ℕ :=
  let ps := pe_patterns signal m delay
  ps.dedup.map fun p => ps.count p

/-- `probs = counts / len(patterns)`. -/
def pe_probs (signal : List ℚ) (m delay : ℕ) : List ℚ :=
  (pe_counts signal m delay).map fun c : ℕ =>
    (c : ℚ) / ((pe_patterns signal m delay).length : ℚ)

/-- `compute_permutation_entropy(signal, m=3, delay=1)`:
`-sum(probs * log(probs + 1e-10))` normalized by `log(m!)`. -/
noncomputable def compute_permutation_entropy (signal : List ℚ) (m delay : ℕ) : ℝ :=
  let probs := pe_probs signal m delay
  let entropy := -((probs.map fun p : ℚ =>
    (p : ℝ) * Real.log ((p : ℝ) + 1 / 10 ^ 10)).sum)
  entropy / Real.log (Nat.factorial m)

/-- One row of `compute_complexity_all_channels`. -/
structure ComplexityRow where
  channel : String
  sample_entropy : ℝ
  approximate_entropy : ℝ
  hurst_exponent : ℝ
  fractal_dimension : ℝ
  lempel_ziv_complexity : ℕ
  dfa_alpha : ℝ
  permutation_entropy : ℝ

/-- The dict literal of one loop iteration of
`compute_complexity_all_channels`: the metrics are evaluated in source
order (sample entropy, approximate entropy, hurst, fractal dimension,
LZ, DFA, permutation entropy), with no exception handling —
`compute_sample_entropy`, `compute_approximate_entropy` and
`compute_fractal_dimension` can raise here, and an exception aborts the
row. Binding the fractal dimension right after the entropies is
behavior-preserving because the intervening `compute_hurst_exponent`
is total (it guards its fit behind `rs_values` being nonempty). -/
noncomputable def complexity_row (channel : String) (signal : List ℚ) :
    Except String ComplexityRow := do
  let se ← compute_sample_entropy signal 2 0.2
  let ae ← compute_approximate_entropy signal 2 0.2
  let fd ← compute_fractal_dimension signal 10
  .ok { channel := channel
        sample_entropy := se
        approximate_entropy := ae
        hurst_exponent := compute_hurst_exponent signal
        fractal_dimension := fd
        lempel_ziv_complexity := compute_lempel_ziv_complexity signal (1 / 2)
        dfa_alpha := compute_dfa signal
        permutation_entropy := compute_permutation_entropy signal 3 1 }

/-- The `for idx, channel in enumerate(CHANNELS_10_20)` loop:
`eeg_data[idx]` raises `IndexError` past the end; a row exception
aborts the remaining channels (no `try` in the source). -/
noncomputable def complexity_rows_loop :
    List (ℕ × String) → List (List ℚ) → Except String (List ComplexityRow)
  | [], _ => .ok []
  | ic :: rest, eeg_data => do
    let row ← (match eeg_data.get? ic.1 with
      | none => Except.error "IndexError"
      | some signal => complexity_row ic.2 signal)
    let rows ← complexity_rows_loop rest eeg_data
    .ok (row :: rows)

/-- `compute_complexity_all_channels`: the full 19-channel table. -/
noncomputable def compute_complexity_all_channels (eeg_data : List (List ℚ)) :
    Except String (List ComplexityRow) :=
  complexity_rows_loop CHANNELS_10_20.enum eeg_data

end Cerebro

namespace Cerebro

/-! ## ConnectivityAnalyzer, transfer entropy
(`src/cerebro/connectivity_analysis.py`, `_transfer_entropy`) -/

/-- `np.linspace(a, b, n)`: `n` evenly spaced points from `a` to `b`
(`a + i·(b-a)/(n-1)`; exact rational arithmetic agrees with numpy's
endpoint convention). -/
def np_linspace (a b : ℚ) (n : ℕ) : List ℚ :=
  (List.range n).map fun i => a + i * (b - a) / ((n : ℚ) - 1)

/-- `np.digitize(x, bins)` for monotonically non-decreasing `bins`
(`right=False`, i.e. `searchsorted(bins, x, side='right')`): the number
of bin edges `≤ x`. -/
def np_digitize (x : ℚ) (bins : List ℚ) : ℕ :=
  (bins.filter fun b => decide (b ≤ x)).length

/-- `_transfer_entropy(x, y, lag, n_bins)`, faithfully including its
two defects:
* `np.digitize(v, np.linspace(min, max, n_bins))` maps the maximum to
  bin index `n_bins`, one past the end of the `n_bins`-sized count
  arrays, so the counting loop raises `IndexError` whenever such an
  index occurs in `y_future`/`y_past`/`x_past` (and also when `x_past`
  is shorter than `y_future`);
* the accumulator references the undefined name
  `p_y_future_y_past_x_pant`, so the first time its guarded block runs
  (some cell of both count tables positive) Python raises `NameError`.
`np.min` of an empty signal raises `ValueError`; with no lagged samples
at all, the count arrays are divided by zero into nans, every `> 0`
guard is false, and `max(0.0, 0.0) = 0.0` is returned. -/
def transfer_entropy (x y : List ℚ) (lag n_bins : ℕ) : Except String ℝ :=
  if x = [] ∨ y = [] then .error "ValueError"
  else
    let x_bins := x.map fun v => np_digitize v (np_linspace (list_min x) (list_max x) n_bins)
    let y_bins := y.map fun v => np_digitize v (np_linspace (list_min y) (list_max y) n_bins)
    let y_future := y_bins.drop lag
    let y_past := y_bins.take (y_bins.length - lag)
    let x_past := x_bins.take (x_bins.length - lag)
    if (List.range y_future.length).any fun i =>
        decide (n_bins ≤ y_future.getD i 0) || decide (n_bins ≤ y_past.getD i 0) ||
          decide (x_past.length ≤ i) || decide (n_bins ≤ x_past.getD i 0) then
      .error "IndexError"
    else if y_future.length = 0 then .ok 0
    else
      let cnt_yf_yp := fun j k => ((List.range y_future.length).filter fun i =>
        decide (y_future.getD i 0 = j ∧ y_past.getD i 0 = k)).length
      let cnt_yp_xp := fun j k => ((List.range y_future.length).filter fun i =>
        decide (y_past.getD i 0 = j ∧ x_past.getD i 0 = k)).length
      if (List.range n_bins).any fun j => (List.range n_bins).any fun k =>
          decide (0 < cnt_yp_xp j k) && decide (0 < cnt_yf_yp j k) then
        .error "NameError"
      else .ok (max 0 0)

/-! ## CardiacAnalyzer, full HRV record and pipeline
(`src/heart_analysis.py`, `src/cerebro/pipeline.py`) -/

/-- The metrics dict of `compute_all_hrv` (its frequency-domain part
resamples through the external `scipy` interpolation/Welch estimate,
abstracted as the parameter `freqOf`, and returns all-zero below 10 RR
intervals). -/
structure HrvRecord where
  channel : String
  heart_rate_bpm : ℚ
  rmssd_ms : ℝ
  sdnn_ms : ℝ
  pnn50_percent : ℚ
  pnn20_percent : ℚ
  lf_power : ℚ
  hf_power : ℚ
  lf_hf_quotient : ℚ
  n_rr_intervals : ℕ

/-- Outcome of `compute_all_hrv`: either the explicit
`{"error": ...}` marker dict or the metrics dict. -/
inductive HrvOutcome where
  | errorMarker (msg : String)
  | record (r : HrvRecord)

/-- The metrics dict built from the RR series of the chosen channel. -/
noncomputable def hrv_record (ch : String) (rr : List ℚ)
    (freqOf : List ℚ → ℚ × ℚ × ℚ) : HrvRecord :=
  let f := if rr.length < 10 then ((0 : ℚ), (0 : ℚ), (0 : ℚ)) else freqOf rr
  { channel := ch
    heart_rate_bpm := compute_heart_rate rr
    rmssd_ms := compute_rmssd rr
    sdnn_ms := compute_sdnn rr
    pnn50_percent := compute_pnn50 rr
    pnn20_percent := compute_pnn20 rr
    lf_power := f.1
    hf_power := f.2.1
    lf_hf_quotient := f.2.2
    n_rr_intervals := rr.length }

/-- `HeartRateAnalysis.compute_all_hrv`: with no channel argument it
auto-detects; when no ECG/EKG/EOG-like channel exists it returns the
explicit `{"error": "No ECG channel found"}` marker instead of raising.
`rrOf` abstracts `compute_rr_intervals` on the chosen channel (whose
peak detection runs through the external mne filter). -/
noncomputable def compute_all_hrv (ch_names : List String) (channel : Option String)
    (rrOf : String → List ℚ) (freqOf : List ℚ → ℚ × ℚ × ℚ) : HrvOutcome :=
  match channel with
  | some ch => .record (hrv_record ch (rrOf ch) freqOf)
  | none =>
    match find_ecg_channel ch_names with
    | none => .errorMarker "No ECG channel found"
    | some ch => .record (hrv_record ch (rrOf ch) freqOf)

/-- `CerebroPipeline.run_full_analysis`: runs the selected analyzers
sequentially (qeeg, bursts, complexity, connectivity) and stores each
result under its key; there is no `try` anywhere, so any analyzer
exception propagates to the caller. The qeeg, burst and connectivity
analyzers run through external mne/neurodsp/scipy code and enter as
`Except` parameters; the complexity analyzer is the embedded one. -/
noncomputable def run_full_analysis {Q B K : Type} (qeeg : Except String Q)
    (bursts : Except String B) (connectivity : Except String K)
    (eeg_data : List (List ℚ))
    (run_qeeg run_bursts run_complexity run_connectivity : Bool) :
    Except String (Option Q × Option B × Option (List ComplexityRow) × Option K) := do
  let q ← if run_qeeg then do
      let v ← qeeg
      pure (some v)
    else pure none
  let b ← if run_bursts then do
      let v ← bursts
      pure (some v)
    else pure none
  let c ← if run_complexity then do
      let v ← compute_complexity_all_channels eeg_data
      pure (some v)
    else pure none
  let k ← if run_connectivity then do
      let v ← connectivity
      pure (some v)
    else pure none
  .ok (q, b, c, k)

end Cerebro

/-! ### End of definitions; theorems settling the claims follow. -/

/-- C5: on the RR series `[1000, …, 1000]` (10 values) the heart rate is
exactly 60.0 BPM; in general the code drops RR intervals outside the
(strict) 300–2000 ms range, returns `60000 / mean` of the survivors, and
returns 0.0 when no interval survives. -/
theorem C5_compute_heart_rate :
    Cerebro.compute_heart_rate (List.replicate 10 1000) = 60 ∧
    (∀ rr : List ℚ, Cerebro.hr_filter rr = [] → Cerebro.compute_heart_rate rr = 0) ∧
    (∀ rr : List ℚ, Cerebro.hr_filter rr ≠ [] →
      Cerebro.compute_heart_rate rr = 60000 / Cerebro.np_mean (Cerebro.hr_filter rr)) := by
  refine ⟨?_, ?_, ?_⟩
  · have hf : (List.replicate 10 (1000 : ℚ)).filter Cerebro.hr_keep = List.replicate 10 1000 := by
      simp [List.filter_replicate, Cerebro.hr_keep]
      norm_num
    simp only [Cerebro.compute_heart_rate, hf]
    norm_num [Cerebro.np_mean, List.sum_replicate]
  · intro rr h
    replace h : rr.filter Cerebro.hr_keep = [] := h
    by_cases h0 : rr.length = 0
    · simp [Cerebro.compute_heart_rate, h0]
    · simp [Cerebro.compute_heart_rate, h0, h]
  · intro rr h
    replace h : rr.filter Cerebro.hr_keep ≠ [] := h
    have h0 : rr.length ≠ 0 := by
      intro h0
      exact h (by simp [List.eq_nil_of_length_eq_zero h0])
    have h1 : (rr.filter Cerebro.hr_keep).length ≠ 0 := by
      intro h1
      exact h (List.eq_nil_of_length_eq_zero h1)
    simp only [Cerebro.compute_heart_rate, Cerebro.hr_filter, h0, h1, if_false]

/-- C5 witness: concrete instances discharging the hypotheses of
`C5_compute_heart_rate`. -/
theorem C5_compute_heart_rate_witness :
    Cerebro.compute_heart_rate [5000] = 0 ∧
    Cerebro.compute_heart_rate [500, 3000] = 60000 / Cerebro.np_mean (Cerebro.hr_filter [500, 3000]) := by
  exact ⟨C5_compute_heart_rate.2.1 [5000] (by decide),
         C5_compute_heart_rate.2.2 [500, 3000] (by decide)⟩

/-- C6: the RR series is exactly the successive detected-peak time
differences converted to milliseconds, and (for a nonempty peak list)
its length is the number of detected peaks minus one. -/
theorem C6_compute_rr_intervals (peaks : List ℚ) (sfreq : ℚ) :
    (∀ i : ℕ, i + 1 < peaks.length →
      (Cerebro.compute_rr_intervals peaks sfreq).getD i 0 =
        (peaks.getD (i + 1) 0 - peaks.getD i 0) / sfreq * 1000) ∧
    (peaks ≠ [] →
      ((Cerebro.compute_rr_intervals peaks sfreq).length : ℤ) = (peaks.length : ℤ) - 1) := by
  constructor
  · intro i hi
    have hip : i < peaks.length := by omega
    have hit : i < peaks.tail.length := by simp [List.length_tail]; omega
    have hiz : i < (peaks.zip peaks.tail).length := by
      simp [List.length_zip, List.length_tail]; omega
    have hi' : i < (Cerebro.compute_rr_intervals peaks sfreq).length := by
      simpa [Cerebro.compute_rr_intervals, Cerebro.np_diff] using hiz
    rw [List.getD_eq_getElem _ 0 hi', List.getD_eq_getElem _ 0 hi, List.getD_eq_getElem _ 0 hip]
    simp only [Cerebro.compute_rr_intervals, Cerebro.np_diff, List.map_map]
    rw [List.getElem_map, Function.comp_apply, List.getElem_zip]
    simp only []
    rw [List.getElem_tail peaks i hit]
  · intro hne
    have : peaks.length ≠ 0 := by simpa [List.length_eq_zero] using hne
    simp [Cerebro.compute_rr_intervals, Cerebro.np_diff, List.length_zip, List.length_tail]
    omega

/-- C6 witness: peaks at samples 0, 500, 1000 with a 500 Hz rate give RR
intervals of 1000 ms and length `3 - 1`. -/
theorem C6_compute_rr_intervals_witness :
    (Cerebro.compute_rr_intervals [0, 500, 1000] 500).getD 0 0 =
      (([0, 500, 1000] : List ℚ).getD 1 0 - ([0, 500, 1000] : List ℚ).getD 0 0) / 500 * 1000 ∧
    ((Cerebro.compute_rr_intervals [0, 500, 1000] 500).length : ℤ) =
      (([0, 500, 1000] : List ℚ).length : ℤ) - 1 := by
  exact ⟨(C6_compute_rr_intervals [0, 500, 1000] 500).1 0 (by decide),
         (C6_compute_rr_intervals [0, 500, 1000] 500).2 (by decide)⟩


/-- C7: for every band and every estimator output, the coherence, wPLI
and PSI matrices are symmetric; the coherence diagonal is exactly 1.0
and the wPLI and PSI diagonals are exactly 0.0. -/
theorem C7_connectivity_matrix_invariants (n : ℕ) (sc : ℚ → ℚ → ℕ → ℕ → ℝ)
    (fmin fmax : ℚ) (i j : Fin n) :
    (Cerebro.compute_coherence n sc fmin fmax i j =
        Cerebro.compute_coherence n sc fmin fmax j i ∧
      Cerebro.compute_coherence n sc fmin fmax i i = 1) ∧
    (Cerebro.compute_wpli n sc fmin fmax i j =
        Cerebro.compute_wpli n sc fmin fmax j i ∧
      Cerebro.compute_wpli n sc fmin fmax i i = 0) ∧
    (Cerebro.compute_phase_slope_index n sc fmin fmax i j =
        Cerebro.compute_phase_slope_index n sc fmin fmax j i ∧
      Cerebro.compute_phase_slope_index n sc fmin fmax i i = 0) := by
  refine ⟨⟨?_, ?_⟩, ⟨?_, ?_⟩, ?_, ?_⟩
  · rcases eq_or_ne i j with h | h
    · simp [h]
    · simp [Cerebro.compute_coherence, h, h.symm, add_comm]
  · simp [Cerebro.compute_coherence]
  · simp [Cerebro.compute_wpli, add_comm]
  · simp [Cerebro.compute_wpli]
  · simp [Cerebro.compute_phase_slope_index, add_comm]
  · simp [Cerebro.compute_phase_slope_index]

/-- C10: `compute_phase_locking_value` returns exactly the matrix of
`compute_coherence` at the same arguments — PLV is an alias of
coherence in this implementation. -/
theorem C10_plv_is_coherence (n : ℕ) (sc : ℚ → ℚ → ℕ → ℕ → ℝ) (fmin fmax : ℚ) :
    Cerebro.compute_phase_locking_value n sc fmin fmax =
      Cerebro.compute_coherence n sc fmin fmax := rfl


/-- C8: every edge surviving the thresholding step of
`build_and_analyze_graph` has weight at or above the 75th percentile of
all pairwise edge weights. -/
theorem C8_graph_threshold_retention (coherence_data : List (String × String × ℚ))
    (e : String × String × ℚ) (he : e ∈ Cerebro.retained_edges coherence_data) :
    Cerebro.graph_threshold coherence_data ≤ e.2.2 := by
  rcases List.mem_filter.mp he with ⟨-, hcond⟩
  have : ¬ (e.2.2 < Cerebro.graph_threshold coherence_data) := by
    simpa using hcond
  exact le_of_not_lt this

/-- C8 witness: on a concrete five-edge weighting the 75th percentile
is 4 and the heaviest edge (weight 5) survives; the theorem bounds its
weight by the percentile. -/
theorem C8_graph_threshold_retention_witness :
    Cerebro.graph_threshold
        [("Fp1", "Fp2", (1 : ℚ)), ("Fp1", "O1", 2), ("Fp1", "O2", 3),
          ("Fp2", "O1", 4), ("Fp2", "O2", 5)]
      ≤ (("Fp2", "O2", (5 : ℚ))).2.2 := by
  have ht : Cerebro.graph_threshold
      [("Fp1", "Fp2", (1 : ℚ)), ("Fp1", "O1", 2), ("Fp1", "O2", 3),
        ("Fp2", "O1", 4), ("Fp2", "O2", 5)] = 4 := by
    have hfl : ⌊3 * (((5 : ℕ) : ℚ) - 1) / 4⌋ = 3 := by norm_num
    have hcl : ⌈3 * (((5 : ℕ) : ℚ) - 1) / 4⌉ = 3 := by norm_num
    norm_num [Cerebro.graph_threshold, Cerebro.np_percentile_75, List.insertionSort,
      List.orderedInsert, hfl, hcl, Int.toNat_ofNat]
    rfl
  exact C8_graph_threshold_retention
    [("Fp1", "Fp2", 1), ("Fp1", "O1", 2), ("Fp1", "O2", 3), ("Fp2", "O1", 4), ("Fp2", "O2", 5)]
    ("Fp2", "O2", 5)
    (List.mem_filter.mpr ⟨by norm_num, by simp [ht]; norm_num⟩)

/-- Evaluation of the code's closeness on a single-edge graph: with one
edge of positive weight `w`, the surviving graph is that edge and the
closeness of either endpoint is `1/w` (distance = raw weight). -/
theorem Cerebro.closeness_single_edge (w : ℚ) (hw : 0 < w) :
    Cerebro.build_and_analyze_graph_closeness [("Fp1", "Fp2", w)] "Fp1" = 1 / w := by
  have hretained : Cerebro.retained_edges [("Fp1", "Fp2", w)] = [("Fp1", "Fp2", w)] := by
    simp [Cerebro.retained_edges, Cerebro.graph_threshold, Cerebro.np_percentile_75,
      List.insertionSort, List.orderedInsert]
  have hne : ¬(("Fp2" : String) = "Fp1") := by decide
  have hmin : min 0 (w + w) = 0 := min_eq_left (by positivity)
  rw [Cerebro.build_and_analyze_graph_closeness, hretained]
  norm_num [Cerebro.closeness_centrality, Cerebro.graph_nodes, Cerebro.dist0,
    Cerebro.edge_len, Cerebro.fw, Cerebro.fw_step, Cerebro.omin, Cerebro.oadd,
    List.foldl, List.range_succ, List.filterMap, List.indexOf, List.findIdx,
    List.findIdx.go, List.find?, hne, hmin, min_self, hw]

/-- Evaluation of the spec's inverse-weight closeness on the same
single-edge graph: the distance is `1/w`, so the closeness is `w`. -/
theorem Cerebro.spec_closeness_single_edge (w : ℚ) (hw : 0 < w) :
    Cerebro.spec_closeness_inverse_weight [("Fp1", "Fp2", w)] "Fp1" = w := by
  have hretained : Cerebro.retained_edges [("Fp1", "Fp2", w)] = [("Fp1", "Fp2", w)] := by
    simp [Cerebro.retained_edges, Cerebro.graph_threshold, Cerebro.np_percentile_75,
      List.insertionSort, List.orderedInsert]
  have hne : ¬(("Fp2" : String) = "Fp1") := by decide
  have hw' : 0 < w⁻¹ := by positivity
  have hmin : min 0 (w⁻¹ + w⁻¹) = 0 := min_eq_left (by positivity)
  rw [Cerebro.spec_closeness_inverse_weight, hretained]
  norm_num [Cerebro.closeness_centrality, Cerebro.graph_nodes, Cerebro.dist0,
    Cerebro.edge_len, Cerebro.fw, Cerebro.fw_step, Cerebro.omin, Cerebro.oadd,
    List.foldl, List.range_succ, List.filterMap, List.indexOf, List.findIdx,
    List.findIdx.go, List.find?, hne, hmin, min_self, hw', inv_inv]

/-- C9 counterexample: on the single-pair weighting `{Fp1-Fp2: 1/2}` the
code's closeness (networkx called with `distance="weight"`, the raw
coherence as distance) is 2, while the spec's
inverse-weight-as-distance closeness is 1/2, so the claim as stated is
false. -/
theorem C9_closeness_counterexample :
    Cerebro.build_and_analyze_graph_closeness [("Fp1", "Fp2", (1 : ℚ)/2)] "Fp1" ≠
      Cerebro.spec_closeness_inverse_weight [("Fp1", "Fp2", (1 : ℚ)/2)] "Fp1" := by
  rw [Cerebro.closeness_single_edge (1/2) (by norm_num),
    Cerebro.spec_closeness_single_edge (1/2) (by norm_num)]
  norm_num

/-- C9 (amended): closeness centrality is computed with the raw edge
weight as the distance (`distance="weight"`), so a higher coherence
gives a longer distance and a lower closeness: on the thresholded graph
the code's closeness is `closeness_centrality` with the identity
distance, and on a single-edge graph closeness is antitone in the
weight. -/
theorem C9_closeness_uses_raw_weight :
    (∀ (coherence_data : List (String × String × ℚ)) (u : String),
      Cerebro.build_and_analyze_graph_closeness coherence_data u =
        Cerebro.closeness_centrality (Cerebro.retained_edges coherence_data) (fun w => w) u) ∧
    (∀ w₁ w₂ : ℚ, 0 < w₁ → w₁ ≤ w₂ →
      Cerebro.build_and_analyze_graph_closeness [("Fp1", "Fp2", w₂)] "Fp1" ≤
        Cerebro.build_and_analyze_graph_closeness [("Fp1", "Fp2", w₁)] "Fp1") := by
  constructor
  · intro coherence_data u
    rfl
  · intro w₁ w₂ hw₁ hle
    have hw₂ : 0 < w₂ := lt_of_lt_of_le hw₁ hle
    rw [Cerebro.closeness_single_edge w₁ hw₁, Cerebro.closeness_single_edge w₂ hw₂]
    exact one_div_le_one_div_of_le hw₁ hle

/-- C9 witness: concrete instantiation of the antitonicity half at
weights 1/2 ≤ 3/4. -/
theorem C9_closeness_uses_raw_weight_witness :
    Cerebro.build_and_analyze_graph_closeness [("Fp1", "Fp2", (3 : ℚ)/4)] "Fp1" ≤
      Cerebro.build_and_analyze_graph_closeness [("Fp1", "Fp2", (1 : ℚ)/2)] "Fp1" :=
  C9_closeness_uses_raw_weight.2 (1/2) (3/4) (by norm_num) (by norm_num)

/-- Support for C1: a successful run of the per-channel loop yields one
row per processed channel. -/
theorem Cerebro.complexity_rows_loop_length :
    ∀ (l : List (ℕ × String)) (eeg_data : List (List ℚ)) (rows : List Cerebro.ComplexityRow),
      Cerebro.complexity_rows_loop l eeg_data = Except.ok rows → rows.length = l.length := by
  intro l
  induction l with
  | nil =>
    intro eeg_data rows h
    simp only [Cerebro.complexity_rows_loop] at h
    cases h
    rfl
  | cons ic rest ih =>
    intro eeg_data rows h
    simp only [Cerebro.complexity_rows_loop, bind, Except.bind] at h
    rcases h1 : (match eeg_data.get? ic.1 with
      | none => (Except.error "IndexError" : Except String Cerebro.ComplexityRow)
      | some signal => Cerebro.complexity_row ic.2 signal) with e | row
    · rw [h1] at h; cases h
    · rw [h1] at h
      rcases h2 : Cerebro.complexity_rows_loop rest eeg_data with e | rows'
      · rw [h2] at h; cases h
      · rw [h2] at h
        cases h
        simpa using ih eeg_data rows' h2

/-- C1 counterexample: with 19 one-sample channels the very first
metric (`compute_sample_entropy`, via `np.zeros(N - m)` at `N - m =
-1`) raises `ValueError`, and with no `try` in
`compute_complexity_all_channels` the whole table computation aborts
instead of defaulting that metric to 0.0. -/
theorem C1_metric_exception_aborts_table :
    Cerebro.compute_complexity_all_channels (List.replicate 19 [0]) =
      Except.error "ValueError" := rfl

/-- C1 (amended): `compute_complexity_all_channels` installs no
exception handling — a metric exception on any channel propagates and
aborts the whole table — and whenever every metric evaluation succeeds
the returned table has exactly one row per channel of the 19-channel
montage. -/
theorem C1_complete_table_on_success (eeg_data : List (List ℚ))
    (rows : List Cerebro.ComplexityRow)
    (h : Cerebro.compute_complexity_all_channels eeg_data = Except.ok rows) :
    rows.length = Cerebro.CHANNELS_10_20.length := by
  have := Cerebro.complexity_rows_loop_length Cerebro.CHANNELS_10_20.enum eeg_data rows h
  simpa [List.enum_length] using this

/-- Support for the C1 witness: every read of the constant-zero
channel is 0 (in or out of range). -/
theorem Cerebro.replicate_zero_getD : ∀ i : ℕ, (List.replicate 12 (0 : ℚ)).getD i 0 = 0 := by
  intro i
  rcases lt_or_ge i 12 with h | h
  · rw [List.getD_eq_getElem _ _ (by simpa using h)]
    rw [List.getElem_replicate]
  · rw [List.getD_eq_default _ _ (by simpa using h)]

/-- Support for the C1 witness: the summed absolute differences of an
all-zero list vanish. -/
theorem Cerebro.np_diff_abs_sum_zero (l : List ℚ) (hl : ∀ a ∈ l, a = 0) :
    ((Cerebro.np_diff l).map fun d => |d|).sum = 0 := by
  apply List.sum_eq_zero
  intro y hy
  simp only [List.mem_map] at hy
  obtain ⟨d, hd, rfl⟩ := hy
  simp only [Cerebro.np_diff, List.mem_map] at hd
  obtain ⟨p, hp, rfl⟩ := hd
  have h1 := hl p.1 (List.of_mem_zip hp).1
  have h2 := hl p.2 (List.mem_of_mem_tail (List.of_mem_zip hp).2)
  simp [h1, h2]

/-- Support for the C1 witness: on a constant channel every entry of
Higuchi's curve-length table is zero. -/
theorem Cerebro.higuchi_L_const_zero :
    ∀ x ∈ Cerebro.higuchi_L (List.replicate 12 (0 : ℚ)) 10, x = 0 := by
  intro x hx
  simp only [Cerebro.higuchi_L, List.mem_filterMap] at hx
  obtain ⟨k, -, hk⟩ := hx
  by_cases hLk : ((List.range k).filterMap fun m =>
      let indices := Cerebro.np_arange_step m (List.replicate 12 (0 : ℚ)).length k
      if 1 < indices.length then
        some (((Cerebro.np_diff (indices.map fun i =>
            (List.replicate 12 (0 : ℚ)).getD i 0)).map fun d => |d|).sum
          * (((List.replicate 12 (0 : ℚ)).length : ℚ) - 1)
          / ((indices.length : ℚ) * k))
      else none) = []
  · rw [if_pos hLk] at hk
    cases hk
  · rw [if_neg hLk] at hk
    injection hk with hx
    subst hx
    show Cerebro.np_mean _ = 0
    rw [Cerebro.np_mean]
    have hsum0 : (((List.range k).filterMap fun m =>
        let indices := Cerebro.np_arange_step m (List.replicate 12 (0 : ℚ)).length k
        if 1 < indices.length then
          some (((Cerebro.np_diff (indices.map fun i =>
              (List.replicate 12 (0 : ℚ)).getD i 0)).map fun d => |d|).sum
            * (((List.replicate 12 (0 : ℚ)).length : ℚ) - 1)
            / ((indices.length : ℚ) * k))
        else none).sum : ℚ) = 0 := by
      apply List.sum_eq_zero
      intro y hy
      simp only [List.mem_filterMap] at hy
      obtain ⟨m, -, hm⟩ := hy
      by_cases hc : 1 < (Cerebro.np_arange_step m (List.replicate 12 (0 : ℚ)).length k).length
      · rw [if_pos hc] at hm
        injection hm with hy
        subst hy
        have hd0 : (((Cerebro.np_diff ((Cerebro.np_arange_step m
            (List.replicate 12 (0 : ℚ)).length k).map fun i =>
            (List.replicate 12 (0 : ℚ)).getD i 0)).map fun d => |d|).sum : ℚ) = 0 := by
          apply Cerebro.np_diff_abs_sum_zero
          intro a ha
          simp only [List.mem_map] at ha
          obtain ⟨i, -, rfl⟩ := ha
          exact Cerebro.replicate_zero_getD i
        rw [hd0, zero_mul, zero_div]
      · rw [if_neg hc] at hm
        cases hm
    rw [hsum0, zero_div]

/-- Support for the C1 witness: on a constant 12-sample channel the
table sums to zero, so `compute_fractal_dimension` returns 1.0 before
reaching the length-mismatched `np.polyfit` (exactly as the program
does). -/
theorem Cerebro.fractal_dimension_const_ok :
    Cerebro.compute_fractal_dimension (List.replicate 12 (0 : ℚ)) 10 = Except.ok 1.0 := by
  have hsum : (Cerebro.higuchi_L (List.replicate 12 (0 : ℚ)) 10).sum = 0 :=
    List.sum_eq_zero Cerebro.higuchi_L_const_zero
  simp only [Cerebro.compute_fractal_dimension]
  rw [if_pos (Or.inr hsum)]

/-- Support for the C1 witness: `sample_phi` succeeds whenever the
`np.zeros(N - m)` size is nonnegative. -/
theorem Cerebro.sample_phi_ok (signal : List ℚ) (m : ℕ) (r : ℝ)
    (h : ¬((signal.length : ℤ) - m < 0)) :
    ∃ v, Cerebro.sample_phi signal m r = Except.ok v := by
  unfold Cerebro.sample_phi
  rw [if_neg h]
  exact ⟨_, rfl⟩

/-- Support for the C1 witness: `approx_phi` succeeds whenever the
`np.zeros(N - m + 1)` size is nonnegative. -/
theorem Cerebro.approx_phi_ok (signal : List ℚ) (m : ℕ) (r : ℝ)
    (h : ¬((signal.length : ℤ) - m + 1 < 0)) :
    ∃ v, Cerebro.approx_phi signal m r = Except.ok v := by
  unfold Cerebro.approx_phi
  rw [if_neg h]
  exact ⟨_, rfl⟩

/-- Support for the C1 witness: sample entropy succeeds on signals
long enough for both template sizes. -/
theorem Cerebro.compute_sample_entropy_ok (signal : List ℚ) (m : ℕ) (r0 : ℝ)
    (h1 : ¬((signal.length : ℤ) - m < 0)) (h2 : ¬((signal.length : ℤ) - (m + 1) < 0)) :
    ∃ v, Cerebro.compute_sample_entropy signal m r0 = Except.ok v := by
  obtain ⟨v1, hv1⟩ := Cerebro.sample_phi_ok signal m (r0 * Cerebro.np_std signal) h1
  obtain ⟨v2, hv2⟩ := Cerebro.sample_phi_ok signal (m + 1) (r0 * Cerebro.np_std signal) h2
  simp only [Cerebro.compute_sample_entropy, hv1, hv2, bind, Except.bind]
  exact ⟨_, rfl⟩

/-- Support for the C1 witness: approximate entropy succeeds on
signals long enough for both template sizes. -/
theorem Cerebro.compute_approximate_entropy_ok (signal : List ℚ) (m : ℕ) (r0 : ℝ)
    (h1 : ¬((signal.length : ℤ) - m + 1 < 0)) (h2 : ¬((signal.length : ℤ) - (m + 1) + 1 < 0)) :
    ∃ v, Cerebro.compute_approximate_entropy signal m r0 = Except.ok v := by
  obtain ⟨v1, hv1⟩ := Cerebro.approx_phi_ok signal m (r0 * Cerebro.np_std signal) h1
  obtain ⟨v2, hv2⟩ := Cerebro.approx_phi_ok signal (m + 1) (r0 * Cerebro.np_std signal) h2
  simp only [Cerebro.compute_approximate_entropy, hv1, hv2, bind, Except.bind]
  exact ⟨_, rfl⟩

/-- Support for the C1 witness: on a constant 12-sample channel every
fallible metric of the row succeeds. -/
theorem Cerebro.complexity_row_const_ok (ch : String) :
    ∃ row, Cerebro.complexity_row ch (List.replicate 12 (0 : ℚ)) = Except.ok row := by
  obtain ⟨s, hs⟩ := Cerebro.compute_sample_entropy_ok (List.replicate 12 (0 : ℚ)) 2 0.2
    (by norm_num) (by norm_num)
  obtain ⟨a, ha⟩ := Cerebro.compute_approximate_entropy_ok (List.replicate 12 (0 : ℚ)) 2 0.2
    (by norm_num) (by norm_num)
  simp only [Cerebro.complexity_row, hs, ha, Cerebro.fractal_dimension_const_ok, bind, Except.bind]
  exact ⟨_, rfl⟩

/-- Support for the C1 witness: the channel loop succeeds when every
channel index resolves and the per-channel row succeeds. -/
theorem Cerebro.complexity_rows_loop_ok :
    ∀ (l : List (ℕ × String)) (eeg_data : List (List ℚ)) (W : List ℚ),
      (∀ ic ∈ l, eeg_data.get? ic.1 = some W) →
      (∀ ch, ∃ row, Cerebro.complexity_row ch W = Except.ok row) →
      ∃ rows, Cerebro.complexity_rows_loop l eeg_data = Except.ok rows := by
  intro l
  induction l with
  | nil => exact fun _ _ _ _ => ⟨[], rfl⟩
  | cons ic rest ih =>
    intro eeg_data W hget hrow
    obtain ⟨row, hr⟩ := hrow ic.2
    obtain ⟨rows, hrs⟩ := ih eeg_data W (fun x hx => hget x (List.mem_cons_of_mem _ hx)) hrow
    refine ⟨row :: rows, ?_⟩
    have hg := hget ic (List.mem_cons_self _ _)
    simp only [Cerebro.complexity_rows_loop, bind, Except.bind, hg, hr, hrs]

/-- C1 witness: on 19 copies of a constant 12-sample channel every
metric evaluates without raising (the fractal table sums to zero, so
its fit is never reached) and the table has 19 rows. -/
theorem C1_complete_table_on_success_witness :
    ∃ rows, Cerebro.compute_complexity_all_channels
        (List.replicate 19 (List.replicate 12 (0 : ℚ))) = Except.ok rows ∧
      rows.length = Cerebro.CHANNELS_10_20.length := by
  have hget : ∀ ic ∈ Cerebro.CHANNELS_10_20.enum,
      (List.replicate 19 (List.replicate 12 (0 : ℚ))).get? ic.1 =
        some (List.replicate 12 (0 : ℚ)) := by
    intro ic hic
    have hlt : ic.1 < 19 := by
      have : ∀ jc ∈ Cerebro.CHANNELS_10_20.enum, jc.1 < 19 := by decide
      exact this ic hic
    rw [List.get?_eq_getElem?, List.getElem?_replicate, if_pos hlt]
  obtain ⟨rows, hrows⟩ := Cerebro.complexity_rows_loop_ok Cerebro.CHANNELS_10_20.enum
    (List.replicate 19 (List.replicate 12 (0 : ℚ))) (List.replicate 12 (0 : ℚ))
    hget Cerebro.complexity_row_const_ok
  exact ⟨rows, hrows, C1_complete_table_on_success _ rows hrows⟩

/-- C4 counterexample: on the constant five-sample signal all windows
share the single ordinal pattern `[0,1,2]`, so `probs = [1.0]` and the
"entropy" `-1·log(1 + 1e-10)` is strictly negative — the normalized
permutation entropy falls outside `[0,1]`. -/
theorem C4_pe_counterexample :
    Cerebro.compute_permutation_entropy (List.replicate 5 0) 3 1 < 0 := by
  have hprobs : Cerebro.pe_probs (List.replicate 5 0) 3 1 = [2 / 2] := rfl
  have h1 : ((2 : ℚ) / 2) = 1 := by norm_num
  rw [h1] at hprobs
  simp only [Cerebro.compute_permutation_entropy, hprobs, List.map_cons, List.map_nil,
    List.sum_cons, List.sum_nil, Rat.cast_one, add_zero, one_mul]
  have h6 : ((Nat.factorial 3 : ℕ) : ℝ) = 6 := by norm_num [Nat.factorial]
  rw [h6]
  apply div_neg_of_neg_of_pos
  · simpa using Real.log_pos (by norm_num : (1 : ℝ) < 1 + 1 / 10 ^ 10)
  · exact Real.log_pos (by norm_num)

theorem Cerebro.list_map_get_sum {α M : Type} [AddCommMonoid M] (l : List α) (f : α → M) :
    (l.map f).sum = ∑ i : Fin l.length, f (l.get i) := by
  induction l with
  | nil => simp
  | cons a t ih =>
    rw [List.map_cons, List.sum_cons, ih]
    show f a + ∑ i : Fin t.length, f (t.get i) =
      ∑ i : Fin (t.length + 1), f ((a :: t).get i)
    rw [Fin.sum_univ_succ]
    rfl

theorem Cerebro.pe_entropy_core (k : ℕ) (hk2 : 2 ≤ k) (hk6 : k ≤ 6) (c : Fin k → ℕ)
    (hc : ∀ i, 1 ≤ c i) (n : ℕ) (hsum : ∑ i, c i = n) (hn : n ≤ 10 ^ 10) :
    0 ≤ -(∑ i, ((c i : ℝ) / n) * Real.log ((c i : ℝ) / n + 1 / 10 ^ 10)) ∧
      -(∑ i, ((c i : ℝ) / n) * Real.log ((c i : ℝ) / n + 1 / 10 ^ 10)) ≤ Real.log 6 := by
  have hkn : k ≤ n := by
    calc k = ∑ _i : Fin k, 1 := by simp
    _ ≤ ∑ i, c i := Finset.sum_le_sum fun i _ => hc i
    _ = n := hsum
  have hn2 : 2 ≤ n := le_trans hk2 hkn
  have hnposn : (0 : ℝ) < n := by positivity
  have hppos : ∀ i : Fin k, (0 : ℝ) < (c i : ℝ) / n := by
    intro i
    apply div_pos _ hnposn
    exact_mod_cast hc i
  have hcle : ∀ i : Fin k, c i ≤ n - 1 := by
    intro i
    have hsplit : c i + ∑ j ∈ Finset.univ.erase i, c j = n := by
      rw [Finset.add_sum_erase Finset.univ c (Finset.mem_univ i)]
      exact hsum
    have hcard : (Finset.univ.erase i).card = k - 1 := by
      rw [Finset.card_erase_of_mem (Finset.mem_univ i)]
      simp
    have hge : k - 1 ≤ ∑ j ∈ Finset.univ.erase i, c j := by
      calc k - 1 = ∑ _j ∈ Finset.univ.erase i, 1 := by rw [Finset.sum_const, hcard]; simp
      _ ≤ _ := Finset.sum_le_sum fun j _ => hc j
    omega
  have hple : ∀ i : Fin k, (c i : ℝ) / n + 1 / 10 ^ 10 ≤ 1 := by
    intro i
    have h1 : (c i : ℝ) / n ≤ ((n : ℝ) - 1) / n := by
      gcongr
      have := hcle i
      have hcast : (c i : ℝ) ≤ ((n - 1 : ℕ) : ℝ) := by exact_mod_cast this
      calc (c i : ℝ) ≤ ((n - 1 : ℕ) : ℝ) := hcast
      _ ≤ (n : ℝ) - 1 := by
        rw [Nat.cast_sub (by omega)]
        norm_num
    have h2 : (1 : ℝ) / 10 ^ 10 ≤ 1 / n := by
      apply one_div_le_one_div_of_le hnposn
      exact_mod_cast hn
    have h3 : ((n : ℝ) - 1) / n + 1 / n = 1 := by
      field_simp
    linarith
  constructor
  · rw [neg_nonneg]
    apply Finset.sum_nonpos
    intro i _
    apply mul_nonpos_of_nonneg_of_nonpos (le_of_lt (hppos i))
    apply Real.log_nonpos _ (hple i)
    positivity
  · have step1 : -(∑ i, ((c i : ℝ) / n) * Real.log ((c i : ℝ) / n + 1 / 10 ^ 10)) ≤
        ∑ i, ((c i : ℝ) / n) * Real.log (((c i : ℝ) / n)⁻¹) := by
      rw [← Finset.sum_neg_distrib]
      apply Finset.sum_le_sum
      intro i _
      rw [Real.log_inv, mul_neg]
      apply neg_le_neg
      apply mul_le_mul_of_nonneg_left _ (le_of_lt (hppos i))
      apply Real.log_le_log (hppos i)
      have : (0 : ℝ) ≤ 1 / 10 ^ 10 := by positivity
      linarith
    have step2 : ∑ i, ((c i : ℝ) / n) * Real.log (((c i : ℝ) / n)⁻¹) ≤
        Real.log (∑ i, ((c i : ℝ) / n) * ((c i : ℝ) / n)⁻¹) := by
      have hjensen := (strictConcaveOn_log_Ioi.concaveOn).le_map_sum
        (t := Finset.univ) (w := fun i : Fin k => (c i : ℝ) / n)
        (p := fun i : Fin k => ((c i : ℝ) / n)⁻¹)
        (fun i _ => le_of_lt (hppos i))
        (by
          rw [← Finset.sum_div]
          rw [show ∑ i, (c i : ℝ) = (n : ℝ) by exact_mod_cast congrArg Nat.cast hsum]
          exact div_self (ne_of_gt hnposn))
        (fun i _ => Set.mem_Ioi.mpr (inv_pos.mpr (hppos i)))
      simpa [smul_eq_mul] using hjensen
    have step3 : (∑ i, ((c i : ℝ) / n) * ((c i : ℝ) / n)⁻¹) = (k : ℝ) := by
      rw [Finset.sum_congr rfl fun i _ => mul_inv_cancel₀ (ne_of_gt (hppos i))]
      simp
    have step4 : Real.log (k : ℝ) ≤ Real.log 6 := by
      apply Real.log_le_log (by positivity)
      exact_mod_cast hk6
    calc -(∑ i, ((c i : ℝ) / n) * Real.log ((c i : ℝ) / n + 1 / 10 ^ 10))
        ≤ ∑ i, ((c i : ℝ) / n) * Real.log (((c i : ℝ) / n)⁻¹) := step1
    _ ≤ Real.log (∑ i, ((c i : ℝ) / n) * ((c i : ℝ) / n)⁻¹) := step2
    _ = Real.log (k : ℝ) := by rw [step3]
    _ ≤ Real.log 6 := step4

theorem Cerebro.pe_dedup_length_le_six (signal : List ℚ) :
    (Cerebro.pe_patterns signal 3 1).dedup.length ≤ 6 := by
  have hsub : ∀ q ∈ (Cerebro.pe_patterns signal 3 1).dedup,
      q ∈ (List.range 3).permutations := by
    intro q hq
    have hq' : q ∈ Cerebro.pe_patterns signal 3 1 := List.mem_dedup.mp hq
    rcases List.mem_map.mp hq' with ⟨i, -, rfl⟩
    apply List.mem_permutations.mpr
    have hlen : (Cerebro.pe_window signal i 3 1).length = 3 := by
      simp [Cerebro.pe_window]
    show List.Perm (Cerebro.np_argsort (Cerebro.pe_window signal i 3 1)) (List.range 3)
    unfold Cerebro.np_argsort
    rw [hlen]
    exact List.perm_insertionSort _ _
  have hnd : (Cerebro.pe_patterns signal 3 1).dedup.Nodup := List.nodup_dedup _
  have hcard : (Cerebro.pe_patterns signal 3 1).dedup.length =
      (Cerebro.pe_patterns signal 3 1).dedup.toFinset.card :=
    (List.toFinset_card_of_nodup hnd).symm
  rw [hcard]
  have hsub' : (Cerebro.pe_patterns signal 3 1).dedup.toFinset ⊆
      ((List.range 3).permutations).toFinset := by
    intro x hx
    rw [List.mem_toFinset] at hx ⊢
    exact hsub x hx
  calc (Cerebro.pe_patterns signal 3 1).dedup.toFinset.card
      ≤ ((List.range 3).permutations).toFinset.card := Finset.card_le_card hsub'
  _ ≤ ((List.range 3).permutations).length := List.toFinset_card_le _
  _ = 6 := by simp [List.length_permutations]; norm_num [Nat.factorial]

theorem Cerebro.pe_entropy_bounds_of_patterns (ps : List (List ℕ))
    (h2 : 2 ≤ ps.dedup.length) (hk6 : ps.dedup.length ≤ 6) (hn : ps.length ≤ 10 ^ 10) :
    0 ≤ -((((ps.dedup.map fun p => ps.count p).map fun c : ℕ =>
          ((c : ℚ) / (ps.length : ℚ))).map fun p : ℚ =>
            (p : ℝ) * Real.log ((p : ℝ) + 1 / 10 ^ 10)).sum) ∧
      -((((ps.dedup.map fun p => ps.count p).map fun c : ℕ =>
          ((c : ℚ) / (ps.length : ℚ))).map fun p : ℚ =>
            (p : ℝ) * Real.log ((p : ℝ) + 1 / 10 ^ 10)).sum) ≤ Real.log 6 := by
  have htrans : ∀ x : List ℕ,
      ps.count x = @List.count _ instBEqOfDecidableEq x ps := by
    intro x
    show List.countP (fun y => @BEq.beq _ List.instBEq y x) ps =
      List.countP (fun y => @BEq.beq _ instBEqOfDecidableEq y x) ps
    apply List.countP_congr
    intro y _
    simp only [beq_iff_eq]
  have hsum_counts : (∑ i : Fin ps.dedup.length, ps.count (ps.dedup.get i)) = ps.length := by
    rw [← Cerebro.list_map_get_sum ps.dedup (fun p : List ℕ => ps.count p)]
    calc (ps.dedup.map fun p : List ℕ => ps.count p).sum
        = (ps.dedup.map fun p : List ℕ => @List.count _ instBEqOfDecidableEq p ps).sum := by
          congr 1
          apply List.map_congr_left
          intro a _
          exact htrans a
    _ = ps.length := List.sum_map_count_dedup_eq_length ps
  have hc : ∀ i : Fin ps.dedup.length, 1 ≤ ps.count (ps.dedup.get i) := by
    intro i
    exact List.count_pos_iff.mpr (List.mem_dedup.mp (List.get_mem _ i.1 i.2))
  have hcore := Cerebro.pe_entropy_core ps.dedup.length h2 hk6
    (fun i => ps.count (ps.dedup.get i)) hc ps.length hsum_counts hn
  have hsum_eq : (((ps.dedup.map fun p => ps.count p).map fun c : ℕ =>
          ((c : ℚ) / (ps.length : ℚ))).map fun p : ℚ =>
            (p : ℝ) * Real.log ((p : ℝ) + 1 / 10 ^ 10)).sum =
      ∑ i : Fin ps.dedup.length,
        ((ps.count (ps.dedup.get i) : ℝ) / (ps.length : ℝ)) *
          Real.log ((ps.count (ps.dedup.get i) : ℝ) / (ps.length : ℝ) + 1 / 10 ^ 10) := by
    rw [List.map_map, List.map_map]
    rw [Cerebro.list_map_get_sum]
    apply Finset.sum_congr rfl
    intro i _
    simp only [Function.comp_apply]
    push_cast
    ring_nf
  rw [hsum_eq]
  exact hcore

/-- C4 (amended): for every channel signal whose windows exhibit at
least two distinct ordinal patterns (and at most `10^10` windows — any
physical recording), the normalized permutation entropy lies in the
closed interval `[0, 1]`; a signal whose windows all share one ordinal
pattern instead yields the slightly negative value
`-log(1 + 1e-10)/log 6`. -/
theorem C4_pe_in_unit_interval (signal : List ℚ)
    (h2 : 2 ≤ (Cerebro.pe_patterns signal 3 1).dedup.length)
    (hn : (Cerebro.pe_patterns signal 3 1).length ≤ 10 ^ 10) :
    0 ≤ Cerebro.compute_permutation_entropy signal 3 1 ∧
      Cerebro.compute_permutation_entropy signal 3 1 ≤ 1 := by
  have hk6 := Cerebro.pe_dedup_length_le_six signal
  have hb := Cerebro.pe_entropy_bounds_of_patterns (Cerebro.pe_patterns signal 3 1) h2 hk6 hn
  have h6 : ((Nat.factorial 3 : ℕ) : ℝ) = 6 := by norm_num [Nat.factorial]
  have hval : Cerebro.compute_permutation_entropy signal 3 1 =
      -(((((Cerebro.pe_patterns signal 3 1).dedup.map
            (fun p => (Cerebro.pe_patterns signal 3 1).count p)).map
          (fun c : ℕ => ((c : ℚ) / ((Cerebro.pe_patterns signal 3 1).length : ℚ)))).map
            (fun p : ℚ => (p : ℝ) * Real.log ((p : ℝ) + 1 / 10 ^ 10))).sum) / Real.log 6 := by
    simp only [Cerebro.compute_permutation_entropy, Cerebro.pe_probs, Cerebro.pe_counts]
    rw [h6]
  rw [hval]
  have hlog6 : (0 : ℝ) < Real.log 6 := Real.log_pos (by norm_num)
  constructor
  · exact div_nonneg hb.1 (le_of_lt hlog6)
  · exact (div_le_one hlog6).mpr hb.2

/-- C4 witness: the signal `[0, 0, 1, 0, 1]` has two windows with two
distinct ordinal patterns, and its permutation entropy lies in
`[0, 1]`. -/
theorem C4_pe_in_unit_interval_witness :
    0 ≤ Cerebro.compute_permutation_entropy [0, 0, 1, 0, 1] 3 1 ∧
      Cerebro.compute_permutation_entropy [0, 0, 1, 0, 1] 3 1 ≤ 1 := by
  have h2 : 2 ≤ (Cerebro.pe_patterns [0, 0, 1, 0, 1] 3 1).dedup.length := by decide
  have hn : (Cerebro.pe_patterns [0, 0, 1, 0, 1] 3 1).length ≤ 10 ^ 10 := by
    have : (Cerebro.pe_patterns [0, 0, 1, 0, 1] 3 1).length = 2 := rfl
    rw [this]
    norm_num
  exact C4_pe_in_unit_interval [0, 0, 1, 0, 1] h2 hn

/-- C3: the transfer-entropy computation does not satisfy the claim —
already at the two-sample pair `x = y = [0.0, 1.0]` (lag 1, 2 bins) it
raises `IndexError`: `np.digitize` against `linspace(min, max, n_bins)`
maps the maximum to bin index `n_bins`, out of range for the
`n_bins×n_bins` count arrays; and its accumulator references the
undefined name `p_y_future_y_past_x_pant` (`NameError`) whenever the
counting does succeed. The spec (§9) itself records the accumulator
typo as a defect, so the code — not the claim — is wrong. -/
theorem C3_transfer_entropy_raises :
    Cerebro.transfer_entropy [0, 1] [0, 1] 1 2 = Except.error "IndexError" := by
  have hlin : Cerebro.np_linspace (Cerebro.list_min [0, 1]) (Cerebro.list_max [0, 1]) 2 =
      [0, 1] := by
    have hmin : Cerebro.list_min [0, 1] = 0 := by norm_num [Cerebro.list_min]
    have hmax : Cerebro.list_max [0, 1] = 1 := by norm_num [Cerebro.list_max]
    rw [hmin, hmax]
    simp [Cerebro.np_linspace, List.range_succ]
    norm_num
  have hdig0 : Cerebro.np_digitize 0 [0, 1] = 1 := by
    norm_num [Cerebro.np_digitize, List.filter]
  have hdig1 : Cerebro.np_digitize 1 [0, 1] = 2 := by
    norm_num [Cerebro.np_digitize, List.filter]
  simp only [Cerebro.transfer_entropy, hlin]
  norm_num [List.range_succ, hdig0, hdig1]
  intro h
  exact absurd h (List.cons_ne_nil _ _)

/-- C2 counterexample: with the qeeg and burst stages succeeding, a
per-channel numeric failure in the complexity analyzer (19 one-sample
channels) propagates straight through `run_full_analysis` — the report
is discarded and the exception escapes the pipeline's boundary, with no
error marker recorded. -/
theorem C2_pipeline_propagates_exception :
    Cerebro.run_full_analysis (Except.ok 0) (Except.ok 0) (Except.ok (0 : ℕ))
      (List.replicate 19 [0]) true true true true = Except.error "ValueError" := rfl

/-- C2 (amended): the cardiac analyzer's `compute_all_hrv` records the
explicit `{"error": "No ECG channel found"}` marker instead of raising
when no cardiac-like channel exists; but the top-level
`run_full_analysis` (which does not even invoke the cardiac analyzer)
installs no error handling of its own: whenever the complexity stage
raises, the exception propagates past the pipeline boundary with the
earlier analyzers' results discarded. -/
theorem C2_error_markers_and_propagation :
    (∀ (ch_names : List String) (rrOf : String → List ℚ) (freqOf : List ℚ → ℚ × ℚ × ℚ),
      Cerebro.find_ecg_channel ch_names = none →
        Cerebro.compute_all_hrv ch_names none rrOf freqOf =
          Cerebro.HrvOutcome.errorMarker "No ECG channel found") ∧
    (∀ (Q B K : Type) (q : Q) (b : B) (k : Except String K)
        (eeg_data : List (List ℚ)) (e : String),
      Cerebro.compute_complexity_all_channels eeg_data = Except.error e →
        Cerebro.run_full_analysis (Except.ok q) (Except.ok b) k eeg_data
          true true true true = Except.error e) := by
  constructor
  · intro ch_names rrOf freqOf h
    simp [Cerebro.compute_all_hrv, h]
  · intro Q B K q b k eeg_data e h
    simp [Cerebro.run_full_analysis, bind, Except.bind, pure, Except.pure, h]

/-- C2 witness: on channel names `["Fp1", "Cz"]` the marker is
returned, and on 19 one-sample channels the pipeline raises
`ValueError` through its boundary. -/
theorem C2_error_markers_and_propagation_witness :
    Cerebro.compute_all_hrv ["Fp1", "Cz"] none (fun _ => []) (fun _ => (0, 0, 0)) =
      Cerebro.HrvOutcome.errorMarker "No ECG channel found" ∧
    Cerebro.run_full_analysis (Except.ok 0) (Except.ok 0) (Except.ok (0 : ℕ))
      (List.replicate 19 [0]) true true true true = Except.error "ValueError" :=
  ⟨C2_error_markers_and_propagation.1 ["Fp1", "Cz"] (fun _ => []) (fun _ => (0, 0, 0))
      (by decide),
    C2_error_markers_and_propagation.2 ℕ ℕ ℕ 0 0 (Except.ok 0)
      (List.replicate 19 [0]) "ValueError" rfl⟩
